import Mathlib

/-!
Shallow embedding of the core of `src/main.py` (a Telegram salary/deal
ledger bot).  Monetary values, computed in Python with `float`, are
modelled as exact rationals `ℚ`; calendar dates as year/month/day
triples (`SDate`); Python exceptions as `Option`/`Except` results.
Each definition carries a pointer to the source lines it embeds.
-/

namespace Salary2445

/-- A calendar date, as Python's `datetime.date`: year, month, day. -/
structure SDate where
  year : Nat
  month : Nat
  day : Nat
deriving DecidableEq, Repr

/-- Python `date` total order, i.e. lexicographic on (year, month, day);
used by the comparisons `start <= d <= end` in
`filter_deals_by_date_range` (main.py lines 50-54). -/
def dateLE (a b : SDate) : Prop :=
  a.year < b.year ∨ (a.year = b.year ∧
    (a.month < b.month ∨ (a.month = b.month ∧ a.day ≤ b.day)))

instance : DecidablePred fun p : SDate × SDate => dateLE p.1 p.2 :=
  fun _ => by unfold dateLE; infer_instance

instance (a b : SDate) : Decidable (dateLE a b) := by unfold dateLE; infer_instance

/-- Gregorian leap-year rule as implemented by Python's `datetime`. -/
def isLeap (y : Nat) : Bool :=
  y % 4 == 0 && (y % 100 != 0 || y % 400 == 0)

/-- Number of days of month `m` of year `y` (0 for an invalid month),
as enforced by Python's `datetime.date` constructor. -/
def daysInMonth (y m : Nat) : Nat :=
  if m = 1 ∨ m = 3 ∨ m = 5 ∨ m = 7 ∨ m = 8 ∨ m = 10 ∨ m = 12 then 31
  else if m = 4 ∨ m = 6 ∨ m = 9 ∨ m = 11 then 30
  else if m = 2 then (if isLeap y then 29 else 28)
  else 0

/-- Python's `date(y, m, d)` constructor: `some` date on valid
components, `none` where Python raises `ValueError`
(main.py lines 38-41 catch that error). -/
def mkDate (y m d : Nat) : Option SDate :=
  if 1 ≤ m ∧ m ≤ 12 ∧ 1 ≤ d ∧ d ≤ daysInMonth y m then some ⟨y, m, d⟩ else none

/-- One deal record as persisted in `deals.json`
(the dict literal built in `get_members`, main.py lines 128-140). -/
structure Deal where
  date_iso : SDate
  index : Nat
  name : String
  rub : ℚ
  fee : ℚ
  rate : ℚ
  clean_rub : ℚ
  usd : ℚ
  pool : ℚ
  share : ℚ
  members : List String
deriving DecidableEq, Repr

/-! ### Date parsing (`parse_date`, main.py lines 30-41) -/

/-- Python `str.lower` restricted to the alphabets the bot meets:
ASCII `A`-`Z` and Cyrillic `А`-`Я` / `Ё`. -/
def pyLowerChar (c : Char) : Char :=
  if 0x41 ≤ c.toNat ∧ c.toNat ≤ 0x5A then Char.ofNat (c.toNat + 0x20)
  else if 0x410 ≤ c.toNat ∧ c.toNat ≤ 0x42F then Char.ofNat (c.toNat + 0x20)
  else if c.toNat = 0x401 then Char.ofNat 0x451
  else c

/-- Python `str.strip()`: drop leading and trailing whitespace. -/
def pyStrip (cs : List Char) : List Char :=
  ((cs.dropWhile Char.isWhitespace).reverse.dropWhile Char.isWhitespace).reverse

/-- `txt.strip().lower()` (main.py line 31), as the character list the
rest of `parse_date` examines. -/
def pyNormalize (txt : String) : List Char :=
  (pyStrip txt.data).map pyLowerChar

/-- Numeric value of a decimal digit character. -/
def dv (c : Char) : Nat := c.toNat - 0x30

/-- Second capture group of the regex `(\d{1,2})[./](\d{1,2})`:
greedily take two digits, else one, else fail; trailing text is
ignored because `re.match` only anchors at the start. -/
def matchGroup2 : List Char → Option Nat
  | m1 :: m2 :: _ =>
      if m1.isDigit then
        if m2.isDigit then some (10 * dv m1 + dv m2) else some (dv m1)
      else none
  | [m1] => if m1.isDigit then some (dv m1) else none
  | [] => none

/-- Is the character one of the separators of the class `[./]`? -/
def isSep (c : Char) : Bool := c == '.' || c == '/'

/-- `re.match(r"(\d{1,2})[./](\d{1,2})", txt)` (main.py line 34):
prefix match returning (day, month).  The first group is greedy with
backtracking: two digits are taken only when a separator follows. -/
def matchDM : List Char → Option (Nat × Nat)
  | a :: b :: rest =>
      if a.isDigit then
        if b.isDigit then
          match rest with
          | s :: rest2 =>
              if isSep s then (matchGroup2 rest2).map (fun m => (10 * dv a + dv b, m))
              else none
          | [] => none
        else if isSep b then (matchGroup2 rest).map (fun m => (dv a, m))
        else none
      else none
  | _ => none

/-- `parse_date` (main.py lines 30-41).  `today` stands for
`datetime.now(timezone.utc).date()` and `year` for
`datetime.now().year`; both are ambient clock values in the source. -/
def parse_date (today : SDate) (year : Nat) (txt : String) : Option SDate :=
  let t := pyNormalize txt
  if t = "сегодня".data ∨ t = "today".data then some today
  else
    match matchDM t with
    | none => none
    | some (day, month) => mkDate year month day

/-! ### Payroll week (`tuesday_week_range`, main.py lines 43-48)

Dates here are proleptic-Gregorian ordinals (`date.toordinal`):
ordinal 1 is 0001-01-01, a Monday, so Python's
`date.weekday()` (Monday = 0) is `(o + 6) % 7`. -/

/-- `ref.weekday()` on an ordinal. -/
def pyWeekday (o : Int) : Int := (o + 6) % 7

/-- `tuesday_week_range` (main.py lines 43-48): step back to the most
recent Tuesday (`offset = (weekday - 1) % 7`), span 6 more days. -/
def tuesday_week_range (ref : Int) : Int × Int :=
  let offset := (pyWeekday ref - 1) % 7
  (ref - offset, ref - offset + 6)

/-! ### Ledger operations -/

/-- `load_deals` (main.py lines 19-25).  The store argument models the
file system: `none` = file absent, `some none` = file present but
`json.loads` raises (corrupt/unreadable), `some (some ds)` = readable
content `ds` in storage order. -/
def load_deals (store : Option (Option (List Deal))) : List Deal :=
  match store with
  | none => []
  | some none => []
  | some (some ds) => ds

/-- `filter_deals_by_date_range` (main.py lines 50-54) applied to a
loaded ledger: keep, in storage order, the deals whose date lies in
`[start, stop]` inclusively. -/
def filter_deals_by_date_range (deals : List Deal) (start stop : SDate) : List Deal :=
  deals.filter fun d => decide (dateLE start d.date_iso) && decide (dateLE d.date_iso stop)

/-- `get_next_index_for_date` (main.py lines 56-58): one plus the
number of deals already carrying date `d`. -/
def get_next_index_for_date (deals : List Deal) (d : SDate) : Nat :=
  (deals.filter fun deal => deal.date_iso == d).length + 1

/-- The `new_deal` dict built in `get_members` (main.py lines 119-140):
derived fields from the raw inputs, index from
`get_next_index_for_date`.  Division is exact on `ℚ`; the Python
`ZeroDivisionError` on `rate = 0` is modelled by `rate_members_flow`
below — this record is only reached on the non-raising path. -/
def new_deal (deals : List Deal) (d : SDate) (name : String)
    (rub fee rate : ℚ) (members : List String) : Deal :=
  let clean_rub := rub - rub * fee / 100
  let usd := clean_rub / rate
  let pool := usd * (25 / 100)
  let share := pool / (members.length : ℚ)
  { date_iso := d
    index := get_next_index_for_date deals d
    name := name
    rub := rub
    fee := fee
    rate := rate
    clean_rub := clean_rub
    usd := usd
    pool := pool
    share := share
    members := members }

/-- `deals.append(new_deal); save_deals(deals)` (main.py lines 142-143):
the persisted ledger after a successful creation. -/
def create_deal (deals : List Deal) (d : SDate) (name : String)
    (rub fee rate : ℚ) (members : List String) : List Deal :=
  deals ++ [new_deal deals d name rub fee rate members]

/-- `delete_deal` (main.py lines 223-233): the code lists all positions
matching `(date, index)`, deletes the list element at the first such
position, and rewrites the file; with no match it replies "Не найдено"
and performs no write (`none` here). -/
def delete_deal (deals : List Deal) (d : SDate) (num : Nat) : Option (List Deal) :=
  match deals with
  | [] => none
  | x :: rest =>
      if x.date_iso == d && x.index == num then some rest
      else (delete_deal rest d num).map (fun l => x :: l)

/-- `show_report` (main.py lines 155-174): `none` models the distinct
"Нет депозитов в выбранный период" reply issued before any total is
computed; otherwise the total `sum(d.share)` together with the
per-deal breakdown lines (modelled as the deals themselves). -/
def show_report (deals : List Deal) (start stop : SDate) :
    Option (ℚ × List Deal) :=
  let ds := filter_deals_by_date_range deals start stop
  if ds.isEmpty then none
  else some ((ds.map fun d => d.share).sum, ds)

/-- Subtract one day from a calendar date
(`date(...) - timedelta(days=1)`, main.py line 264). -/
def prevDay (d : SDate) : SDate :=
  if 1 < d.day then ⟨d.year, d.month, d.day - 1⟩
  else if 1 < d.month then ⟨d.year, d.month - 1, daysInMonth d.year (d.month - 1)⟩
  else ⟨d.year - 1, 12, 31⟩

/-! ### Numeric input and member extraction (`get_rate`, `get_members`) -/

/-- Value of a nonempty digit run; `[]` contributes 0 (used for the
integer part of `".5"`). -/
def digitsVal (cs : List Char) : Nat :=
  cs.foldl (fun acc c => 10 * acc + dv c) 0

/-- Python `float(text)` on plain decimal literals: optional sign,
digits with an optional point, at least one digit overall.  (The
exotic forms `float` also accepts — exponents, `inf`, `nan` — never
denote the plain numbers the bot prompts for and are left out.) -/
def parsePyFloat (s : String) : Option ℚ :=
  let cs := pyStrip s.data
  let core : List Char → Option ℚ := fun cs =>
    let ip := cs.takeWhile Char.isDigit
    match cs.dropWhile Char.isDigit with
    | [] => if ip.isEmpty then none else some (digitsVal ip : ℚ)
    | '.' :: frac =>
        if frac.all Char.isDigit ∧ ¬(ip.isEmpty ∧ frac.isEmpty) then
          some ((digitsVal ip : ℚ) + (digitsVal frac : ℚ) / (10 ^ frac.length : ℚ))
        else none
    | _ => none
  match cs with
  | '-' :: rest => (core rest).map (fun q => -q)
  | '+' :: rest => core rest
  | _ => core cs

/-- `get_rate` (main.py lines 97-104): `float(text.replace(",", "."))`,
re-prompting (`none`) when `float` raises `ValueError`.  Replacing the
one-character substring `","` by `"."` is the character map below.
Any numeric text is accepted — including `"0"` and negative values. -/
def get_rate (txt : String) : Option ℚ :=
  parsePyFloat (String.mk (txt.data.map fun c => if c = ',' then '.' else c))

/-- Scanner loop of `re.findall(r"#\d+", raw)` (main.py line 109):
left-to-right non-overlapping scan; each `#` followed by at least one
digit yields `#` plus the maximal digit run, and the scan resumes
after it.  The `fuel` argument only makes the recursion structural;
every step consumes at least one character, so `fuel = length` (as
passed by `findHashTokens`) never runs out. -/
def findHashAux : Nat → List Char → List String
  | 0, _ => []
  | _, [] => []
  | fuel + 1, c :: rest =>
      if c = '#' then
        let digs := rest.takeWhile Char.isDigit
        if digs.isEmpty then findHashAux fuel rest
        else ("#" ++ String.mk digs) :: findHashAux fuel (rest.drop digs.length)
      else findHashAux fuel rest

/-- `re.findall(r"#\d+", raw)` over the characters of `raw`. -/
def findHashTokens (cs : List Char) : List String :=
  findHashAux cs.length cs

/-- A field-specific failure in the rate/members tail of the `/deal`
conversation. -/
inductive CreateError where
  | badRate
  | noMembers
  | divByZero
deriving DecidableEq, Repr

/-- The tail of the creation conversation (main.py lines 97-122):
`get_rate` parses the rate text (re-prompt on failure), `get_members`
extracts `#`-tokens and re-prompts when none are found — *before* any
derived computation — and only then computes the derived fields.
`clean_rub / rate` raises `ZeroDivisionError` in Python when
`rate = 0`; that exceptional branch is `CreateError.divByZero`.
`pool / total` cannot raise: `total ≥ 1` is guaranteed by the member
check. -/
def rate_members_flow (rateTxt raw : String) (rub fee : ℚ) :
    Except CreateError (ℚ × ℚ × ℚ × ℚ × List String) :=
  match get_rate rateTxt with
  | none => .error .badRate
  | some rate =>
      let members := findHashTokens (pyStrip raw.data)
      if members.isEmpty then .error .noMembers
      else
        let total := members.length
        let clean_rub := rub - rub * fee / 100
        if rate = 0 then .error .divByZero
        else
          let usd := clean_rub / rate
          let pool := usd * (25 / 100)
          .ok (clean_rub, usd, pool, pool / (total : ℚ), members)

/-! ### Operation sequences (create / delete) -/

/-- One mutating request against the ledger. -/
inductive Op where
  | create (d : SDate) (name : String) (rub fee rate : ℚ) (members : List String)
  | del (d : SDate) (num : Nat)
deriving DecidableEq, Repr

/-- Does the operation create a deal? -/
def Op.isCreate : Op → Bool
  | .create _ _ _ _ _ _ => true
  | .del _ _ => false

/-- Apply one operation to the persisted ledger; a failed delete
performs no write. -/
def applyOp (deals : List Deal) : Op → List Deal
  | .create d name rub fee rate members => create_deal deals d name rub fee rate members
  | .del d num => (delete_deal deals d num).getD deals

/-- Run a sequence of requests against a ledger. -/
def applyOps (deals : List Deal) (ops : List Op) : List Deal :=
  ops.foldl applyOp deals

/-- Indices of the deals carrying date `d`, in storage order. -/
def samedayIndices (deals : List Deal) (d : SDate) : List Nat :=
  (deals.filter fun x => x.date_iso == d).map fun x => x.index

/-- The `(date, index)` pair is a key: two distinct positions in the
ledger never hold the same date together with the same index. -/
def UniqueIndexPerDate (deals : List Deal) : Prop :=
  deals.Pairwise fun a b => a.date_iso = b.date_iso → a.index ≠ b.index

instance (deals : List Deal) : Decidable (UniqueIndexPerDate deals) := by
  unfold UniqueIndexPerDate; exact List.instDecidablePairwise deals

/-- Repeatedly create deals on one fixed date `d` from a list of raw
inputs (name, amount, fee, rate, members), as successive completed
`/deal` conversations. -/
def createMany (deals : List Deal) (d : SDate)
    (inputs : List (String × ℚ × ℚ × ℚ × List String)) : List Deal :=
  inputs.foldl
    (fun acc i => create_deal acc d i.1 i.2.1 i.2.2.1 i.2.2.2.1 i.2.2.2.2) deals

/-- The month window computed by `show_month` (main.py lines 256-265):
first of the month through Dec 31 for month 12, else through the first
of the next month minus one day. -/
def show_month_range (year month : Nat) : SDate × SDate :=
  let start : SDate := ⟨year, month, 1⟩
  let stop : SDate := if month = 12 then ⟨year, 12, 31⟩ else prevDay ⟨year, month + 1, 1⟩
  (start, stop)

/-- Number of deals in the ledger carrying date `d`. -/
def countDate (deals : List Deal) (d : SDate) : Nat :=
  (deals.filter fun x => x.date_iso == d).length

/-- The same-day indices for `d` are exactly `1, 2, ..., countDate d`
in storage order — the state produced by pure creation histories. -/
def IndicesSeq (deals : List Deal) (d : SDate) : Prop :=
  samedayIndices deals d = List.range' 1 (countDate deals d)

/-- Concrete record used in examples: deal 1 of 2025-07-21. -/
def dealA : Deal :=
  { date_iso := ⟨2025, 7, 21⟩, index := 1, name := "a", rub := 100, fee := 0,
    rate := 1, clean_rub := 100, usd := 100, pool := 25, share := 25,
    members := ["#1"] }

/-- Concrete record used in examples: deal 2 of 2025-07-21. -/
def dealB : Deal :=
  { date_iso := ⟨2025, 7, 21⟩, index := 2, name := "b", rub := 100, fee := 0,
    rate := 1, clean_rub := 100, usd := 100, pool := 25, share := 25,
    members := ["#1"] }

/-- Create twice on 2025-07-21, delete index 1, create again on the
same date: the history exhibiting an index collision. -/
def opsDup : List Op :=
  [.create ⟨2025, 7, 21⟩ "a" 100 0 1 ["#1"],
   .create ⟨2025, 7, 21⟩ "b" 100 0 1 ["#1"],
   .del ⟨2025, 7, 21⟩ 1,
   .create ⟨2025, 7, 21⟩ "c" 100 0 1 ["#1"]]

/-- A small deletion-free history over two dates. -/
def opsCreates : List Op :=
  [.create ⟨2025, 7, 21⟩ "a" 100 0 1 ["#1"],
   .create ⟨2025, 7, 21⟩ "b" 100 0 1 ["#1"],
   .create ⟨2025, 7, 22⟩ "c" 100 0 1 ["#1"]]

/-! ## Theorems -/

/-- C6: for every reference date, the payroll week returned by
`tuesday_week_range` starts on a Tuesday (weekday 1), ends exactly
6 days after its start (a 7-day span), and contains the reference
date. -/
theorem payroll_week_tuesday_span (ref : Int) :
    pyWeekday (tuesday_week_range ref).1 = 1 ∧
    (tuesday_week_range ref).2 = (tuesday_week_range ref).1 + 6 ∧
    (tuesday_week_range ref).1 ≤ ref ∧ ref ≤ (tuesday_week_range ref).2 := by
  unfold tuesday_week_range pyWeekday
  dsimp only
  refine ⟨?_, ?_, ?_, ?_⟩ <;> omega

/-- C9: loading the ledger yields the persisted collection in storage
order when it is readable, and the empty sequence — not an error —
when the file is absent or its content is unreadable/corrupt. -/
theorem load_deals_total_or_empty (ds : List Deal) :
    load_deals (some (some ds)) = ds ∧
    load_deals none = [] ∧
    load_deals (some none) = [] :=
  ⟨rfl, rfl, rfl⟩

/-- C8: for `1 ≤ m ≤ 12`, the month window of `show_month` runs from
the first to the last calendar day of month `m`: December ends on
Dec 31, every other month ends on the first of the next month minus
one day, which is its own last day. -/
theorem month_range_first_to_last (y m : Nat) (h1 : 1 ≤ m) (h2 : m ≤ 12) :
    show_month_range y m = (⟨y, m, 1⟩, ⟨y, m, daysInMonth y m⟩) := by
  unfold show_month_range prevDay daysInMonth
  interval_cases m <;> simp

/-- Witness for C8: April runs 04-01 through 04-30 and December 12-01
through 12-31. -/
theorem month_range_first_to_last_witness :
    show_month_range 2025 4 = (⟨2025, 4, 1⟩, ⟨2025, 4, 30⟩) ∧
    show_month_range 2025 12 = (⟨2025, 12, 1⟩, ⟨2025, 12, 31⟩) :=
  ⟨month_range_first_to_last 2025 4 (by norm_num) (by norm_num),
   month_range_first_to_last 2025 12 (by norm_num) (by norm_num)⟩

/-- February never has a 31st day, whatever the (free) year. -/
theorem mkDate_feb31 (year : Nat) : mkDate year 2 31 = none := by
  have h : daysInMonth year 2 ≤ 29 := by
    unfold daysInMonth
    norm_num
    split <;> norm_num
  unfold mkDate
  rw [if_neg]
  omega

/-- Unfolding equation of `parse_date` with its let inlined. -/
theorem parse_date_eq (today : SDate) (year : Nat) (txt : String) :
    parse_date today year txt =
      if pyNormalize txt = "сегодня".data ∨ pyNormalize txt = "today".data then some today
      else
        match matchDM (pyNormalize txt) with
        | none => none
        | some (day, month) => mkDate year month day := rfl

/-- C5: `parse_date` sends the (case-insensitively lowered, stripped)
words "today"/"сегодня" to the current UTC date; any other text is
matched against the day-first `D[./]M` prefix pattern and resolved
against the current year — succeeding exactly when the pattern matches
and the day/month pair is a valid calendar date, and in that case the
result's year is always the current year (a year component in the text
is never taken up); "31.02" is rejected, and the year-suffixed
"31.02.2024" is likewise rejected rather than parsed. -/
theorem parse_date_contract (today : SDate) (year : Nat) (txt : String) :
    (pyNormalize txt = "сегодня".data ∨ pyNormalize txt = "today".data →
      parse_date today year txt = some today) ∧
    (¬(pyNormalize txt = "сегодня".data ∨ pyNormalize txt = "today".data) →
      parse_date today year txt =
        match matchDM (pyNormalize txt) with
        | none => none
        | some (day, month) => mkDate year month day) ∧
    (∀ r, parse_date today year txt = some r →
      ¬(pyNormalize txt = "сегодня".data ∨ pyNormalize txt = "today".data) →
      r.year = year ∧
        ∃ day month, matchDM (pyNormalize txt) = some (day, month) ∧
          1 ≤ month ∧ month ≤ 12 ∧ 1 ≤ day ∧ day ≤ daysInMonth year month ∧
          r = ⟨year, month, day⟩) ∧
    parse_date today year "31.02" = none ∧
    parse_date today year "31.02.2024" = none := by
  refine ⟨?_, ?_, ?_, ?_, ?_⟩
  · intro h
    rw [parse_date_eq, if_pos h]
  · intro h
    rw [parse_date_eq, if_neg h]
  · intro r hr hn
    rw [parse_date_eq, if_neg hn] at hr
    cases hm : matchDM (pyNormalize txt) with
    | none => rw [hm] at hr; exact absurd hr (by simp)
    | some p =>
        obtain ⟨day, month⟩ := p
        rw [hm] at hr
        simp only at hr
        unfold mkDate at hr
        by_cases hv : 1 ≤ month ∧ month ≤ 12 ∧ 1 ≤ day ∧ day ≤ daysInMonth year month
        · rw [if_pos hv] at hr
          have hr' : r = ⟨year, month, day⟩ := by
            cases hr; rfl
          subst hr'
          exact ⟨rfl, day, month, rfl, hv.1, hv.2.1, hv.2.2.1, hv.2.2.2, rfl⟩
        · rw [if_neg hv] at hr
          exact absurd hr (by simp)
  · have hm : matchDM (pyNormalize "31.02") = some (31, 2) := by decide
    rw [parse_date_eq, if_neg (by decide), hm]
    exact mkDate_feb31 year
  · have hm : matchDM (pyNormalize "31.02.2024") = some (31, 2) := by decide
    rw [parse_date_eq, if_neg (by decide), hm]
    exact mkDate_feb31 year

/-- Witness for C5: "TODAY" resolves to the current UTC date, and
"5/6" resolves to June 5 of the current year. -/
theorem parse_date_contract_witness :
    parse_date ⟨2025, 7, 21⟩ 2025 "TODAY" = some ⟨2025, 7, 21⟩ ∧
    parse_date ⟨2025, 7, 21⟩ 2025 "5/6" = some ⟨2025, 6, 5⟩ := by
  constructor
  · exact (parse_date_contract ⟨2025, 7, 21⟩ 2025 "TODAY").1 (by decide)
  · have h := (parse_date_contract ⟨2025, 7, 21⟩ 2025 "5/6").2.1 (by decide)
    rw [h]
    decide

/-- A creation appends one record and keeps the existing ones. -/
theorem create_deal_append (deals : List Deal) (d : SDate) (name : String)
    (A F R : ℚ) (ms : List String) :
    (create_deal deals d name A F R ms).getLast?
      = some (new_deal deals d name A F R ms) := by
  unfold create_deal
  simp

/-- C1: for every valid creation (positive member count, nonzero rate),
the stored record satisfies `clean_rub = A * (1 - F/100)`,
`usd = clean_rub / R`, `pool = usd * 25%` and `share = pool / N`. -/
theorem create_deal_derived_fields (deals : List Deal) (d : SDate) (name : String)
    (A F R : ℚ) (ms : List String) (hR : R ≠ 0) (hN : 1 ≤ ms.length) :
    ((create_deal deals d name A F R ms).getLast?.map fun x => x.clean_rub)
        = some (A * (1 - F / 100)) ∧
    ((create_deal deals d name A F R ms).getLast?.map fun x => x.usd)
        = some (A * (1 - F / 100) / R) ∧
    ((create_deal deals d name A F R ms).getLast?.map fun x => x.pool)
        = some (A * (1 - F / 100) / R * (25 / 100)) ∧
    ((create_deal deals d name A F R ms).getLast?.map fun x => x.share)
        = some (A * (1 - F / 100) / R * (25 / 100) / (ms.length : ℚ)) := by
  have key : A - A * F / 100 = A * (1 - F / 100) := by ring
  refine ⟨?_, ?_, ?_, ?_⟩ <;>
    rw [create_deal_append] <;>
    simp only [new_deal, Option.map_some'] <;>
    rw [key]

/-- Witness for C1: A=10000, F=2, R=90 and 2 members give
clean 9800 ₽, 108.888… $ (= 980/9), pool 27.222… $ (= 245/9) and a
share of 13.611… $ (= 245/18). -/
theorem create_deal_derived_fields_witness :
    ((create_deal [] ⟨2025, 7, 21⟩ "СБП" 10000 2 90 ["#10", "#12"]).getLast?.map
        fun x => x.clean_rub) = some 9800 ∧
    ((create_deal [] ⟨2025, 7, 21⟩ "СБП" 10000 2 90 ["#10", "#12"]).getLast?.map
        fun x => x.usd) = some (980 / 9) ∧
    ((create_deal [] ⟨2025, 7, 21⟩ "СБП" 10000 2 90 ["#10", "#12"]).getLast?.map
        fun x => x.pool) = some (245 / 9) ∧
    ((create_deal [] ⟨2025, 7, 21⟩ "СБП" 10000 2 90 ["#10", "#12"]).getLast?.map
        fun x => x.share) = some (245 / 18) := by
  have h := create_deal_derived_fields [] ⟨2025, 7, 21⟩ "СБП" 10000 2 90 ["#10", "#12"]
    (by norm_num) (by norm_num)
  refine ⟨?_, ?_, ?_, ?_⟩
  · rw [h.1]; norm_num
  · rw [h.2.1]; norm_num
  · rw [h.2.2.1]; norm_num
  · rw [h.2.2.2]; norm_num

/-- How a creation on date `d0` changes the same-day index list of an
arbitrary date `d`. -/
theorem samedayIndices_create (deals : List Deal) (d0 d : SDate) (name : String)
    (A F R : ℚ) (ms : List String) :
    samedayIndices (create_deal deals d0 name A F R ms) d =
      if d0 = d then samedayIndices deals d ++ [countDate deals d0 + 1]
      else samedayIndices deals d := by
  unfold samedayIndices create_deal new_deal get_next_index_for_date countDate
  by_cases h : d0 = d
  · subst h
    simp [List.filter_append]
  · simp [List.filter_append, h]

/-- How a creation on date `d0` changes the same-day count of an
arbitrary date `d`. -/
theorem countDate_create (deals : List Deal) (d0 d : SDate) (name : String)
    (A F R : ℚ) (ms : List String) :
    countDate (create_deal deals d0 name A F R ms) d =
      if d0 = d then countDate deals d + 1 else countDate deals d := by
  unfold countDate create_deal new_deal
  by_cases h : d0 = d
  · subst h
    simp [List.filter_append]
  · simp [List.filter_append, h]

/-- Creations keep every date's same-day index list equal to
`1, …, count`. -/
theorem indicesSeq_create (deals : List Deal) (d0 : SDate) (name : String)
    (A F R : ℚ) (ms : List String) (d : SDate) (h : IndicesSeq deals d) :
    IndicesSeq (create_deal deals d0 name A F R ms) d := by
  unfold IndicesSeq at *
  rw [samedayIndices_create, countDate_create]
  by_cases hd : d0 = d
  · rw [if_pos hd, if_pos hd, h, List.range'_concat]
    subst hd
    congr 1
    simp
    omega
  · rw [if_neg hd, if_neg hd, h]

/-- `IndicesSeq` holds for `d` on every ledger with no deal dated `d`. -/
theorem indicesSeq_of_no_deal (deals : List Deal) (d : SDate)
    (h : ∀ x ∈ deals, x.date_iso ≠ d) : IndicesSeq deals d := by
  unfold IndicesSeq samedayIndices countDate
  have : deals.filter (fun x => x.date_iso == d) = [] := by
    rw [List.filter_eq_nil_iff]
    intro a ha
    simpa using h a ha
  rw [this]
  rfl

/-- Running a batch of creations on one date extends that date's index
list by consecutive integers. -/
theorem createMany_indicesSeq (d : SDate)
    (inputs : List (String × ℚ × ℚ × ℚ × List String)) :
    ∀ deals : List Deal, IndicesSeq deals d →
      IndicesSeq (createMany deals d inputs) d ∧
      countDate (createMany deals d inputs) d = countDate deals d + inputs.length := by
  induction inputs with
  | nil => intro deals h; exact ⟨h, rfl⟩
  | cons i rest ih =>
      intro deals h
      have h1 := indicesSeq_create deals d i.1 i.2.1 i.2.2.1 i.2.2.2.1 i.2.2.2.2 d h
      have h2 := ih (create_deal deals d i.1 i.2.1 i.2.2.1 i.2.2.2.1 i.2.2.2.2) h1
      refine ⟨h2.1, ?_⟩
      have h3 := countDate_create deals d d i.1 i.2.1 i.2.2.1 i.2.2.2.1 i.2.2.2.2
      rw [if_pos rfl] at h3
      unfold createMany at h2 ⊢
      rw [List.foldl_cons, h2.2, h3]
      simp [Nat.add_assoc, Nat.add_comm]

/-- C2: the index given to a new deal dated `d` is the count of deals
already dated `d` plus one — both as computed by
`get_next_index_for_date` and as stored by `create_deal` — and in a
ledger with no deal dated `d`, a run of `n` creations on `d` with no
intervening deletion stores the indices `1, 2, …, n` in creation
order. -/
theorem next_index_dense (deals : List Deal) (d : SDate) :
    get_next_index_for_date deals d = deals.countP (fun x => x.date_iso == d) + 1 ∧
    (∀ (name : String) (A F R : ℚ) (ms : List String),
      ((create_deal deals d name A F R ms).getLast?.map fun x => x.index)
        = some (deals.countP (fun x => x.date_iso == d) + 1)) ∧
    (∀ inputs : List (String × ℚ × ℚ × ℚ × List String),
      (∀ x ∈ deals, x.date_iso ≠ d) →
      samedayIndices (createMany deals d inputs) d = List.range' 1 inputs.length) := by
  have hcount : deals.countP (fun x => x.date_iso == d)
      = (deals.filter fun x => x.date_iso == d).length :=
    List.countP_eq_length_filter _ _
  refine ⟨?_, ?_, ?_⟩
  · rw [get_next_index_for_date, hcount]
  · intro name A F R ms
    rw [create_deal_append]
    simp only [new_deal, Option.map_some']
    rw [get_next_index_for_date, hcount]
  · intro inputs h
    have h0 : IndicesSeq deals d := indicesSeq_of_no_deal deals d h
    have h1 := createMany_indicesSeq d inputs deals h0
    have h2 : countDate deals d = 0 := by
      unfold countDate
      have : deals.filter (fun x => x.date_iso == d) = [] := by
        rw [List.filter_eq_nil_iff]
        intro a ha
        simpa using h a ha
      rw [this]
      rfl
    have h3 := h1.1
    unfold IndicesSeq at h3
    rw [h3, h1.2, h2, Nat.zero_add]

/-- Witness for C2: on a ledger already holding the two 2025-07-21
deals `dealA` and `dealB` the next index for that date is 2 + 1 = 3,
and three deals created on 2025-07-21 in an empty ledger receive the
indices 1, 2, 3. -/
theorem next_index_dense_witness :
    get_next_index_for_date [dealA, dealB] ⟨2025, 7, 21⟩ = 3 ∧
    samedayIndices
        (createMany [] ⟨2025, 7, 21⟩
          [("a", 100, 0, 1, ["#1"]), ("b", 200, 1, 2, ["#2"]),
           ("c", 300, 2, 4, ["#3"])])
        ⟨2025, 7, 21⟩ = [1, 2, 3] := by
  constructor
  · rw [(next_index_dense [dealA, dealB] ⟨2025, 7, 21⟩).1]
    decide
  · have h := (next_index_dense [] ⟨2025, 7, 21⟩).2.2
      [("a", 100, 0, 1, ["#1"]), ("b", 200, 1, 2, ["#2"]), ("c", 300, 2, 4, ["#3"])]
      (by simp)
    rw [h]
    decide

/-- With no matching deal, `delete_deal` signals not-found and writes
nothing. -/
theorem delete_deal_no_match (d : SDate) (num : Nat) :
    ∀ deals : List Deal,
      (∀ x ∈ deals, ¬(x.date_iso = d ∧ x.index = num)) →
      delete_deal deals d num = none := by
  intro deals
  induction deals with
  | nil => intro _; rfl
  | cons x rest ih =>
      intro h
      have hx := h x (List.mem_cons_self x rest)
      have hc : (x.date_iso == d && x.index == num) = false := by
        simp only [Bool.and_eq_false_iff, beq_eq_false_iff_ne, ne_eq]
        tauto
      rw [delete_deal, if_neg (by simp [hc]), ih fun y hy => h y (List.mem_cons_of_mem x hy)]
      rfl

/-- Deleting at the position of the first match keeps every earlier
and later record, in order. -/
theorem delete_deal_first_match (d : SDate) (num : Nat) (m : Deal)
    (hd : m.date_iso = d) (hnum : m.index = num) :
    ∀ (pre post : List Deal),
      (∀ x ∈ pre, ¬(x.date_iso = d ∧ x.index = num)) →
      delete_deal (pre ++ m :: post) d num = some (pre ++ post) := by
  intro pre
  induction pre with
  | nil =>
      intro post _
      rw [List.nil_append, delete_deal, if_pos (by simp [hd, hnum]), List.nil_append]
  | cons a pre ih =>
      intro post h
      have ha := h a (List.mem_cons_self a pre)
      have hc : (a.date_iso == d && a.index == num) = false := by
        simp only [Bool.and_eq_false_iff, beq_eq_false_iff_ne, ne_eq]
        tauto
      rw [List.cons_append, delete_deal, if_neg (by simp [hc]),
        ih post fun y hy => h y (List.mem_cons_of_mem a hy)]
      rfl

/-- C3: deleting by `(date, index)` removes exactly the first matching
record and leaves every other record unchanged with its original index
(no renumbering); with no matching record it signals not-found and
performs no write. -/
theorem delete_removes_first_match_only (deals : List Deal) (d : SDate) (num : Nat) :
    ((∀ x ∈ deals, ¬(x.date_iso = d ∧ x.index = num)) →
      delete_deal deals d num = none) ∧
    (∀ (pre post : List Deal) (m : Deal), deals = pre ++ m :: post →
      (∀ x ∈ pre, ¬(x.date_iso = d ∧ x.index = num)) →
      m.date_iso = d → m.index = num →
      delete_deal deals d num = some (pre ++ post)) := by
  constructor
  · exact delete_deal_no_match d num deals
  · intro pre post m hsplit hpre hd hnum
    rw [hsplit]
    exact delete_deal_first_match d num m hd hnum pre post hpre

/-- Witness for C3: in the two-deal ledger `[dealA, dealB]` of
2025-07-21, deleting index 2 removes exactly `dealB` and keeps `dealA`
with its original index, and deleting the absent index 3 returns
not-found. -/
theorem delete_removes_first_match_only_witness :
    delete_deal [dealA, dealB] ⟨2025, 7, 21⟩ 2 = some [dealA] ∧
    delete_deal [dealA, dealB] ⟨2025, 7, 21⟩ 3 = none := by
  constructor
  · have h := (delete_removes_first_match_only [dealA, dealB] ⟨2025, 7, 21⟩ 2).2
      [dealA] [] dealB rfl (by decide) (by decide) (by decide)
    simpa using h
  · exact (delete_removes_first_match_only [dealA, dealB] ⟨2025, 7, 21⟩ 3).1 (by decide)

/-- Per-date index lists without duplicates force pairwise-distinct
`(date, index)` pairs across the ledger. -/
theorem nodup_sameday_unique :
    ∀ deals : List Deal, (∀ d, (samedayIndices deals d).Nodup) →
      UniqueIndexPerDate deals := by
  intro deals
  induction deals with
  | nil => intro _; exact List.Pairwise.nil
  | cons a tl ih =>
      intro h
      constructor
      · intro b hb hdate
        have h1 := h a.date_iso
        have he : samedayIndices (a :: tl) a.date_iso
            = a.index :: samedayIndices tl a.date_iso := by
          unfold samedayIndices
          rw [List.filter_cons_of_pos (by simp)]
          rfl
        rw [he, List.nodup_cons] at h1
        intro hidx
        apply h1.1
        unfold samedayIndices
        rw [List.mem_map]
        refine ⟨b, ?_, hidx.symm⟩
        rw [List.mem_filter]
        exact ⟨hb, by simp [hdate]⟩
      · apply ih
        intro d
        have h2 := h d
        unfold samedayIndices at h2 ⊢
        by_cases hc : (a.date_iso == d) = true
        · have hf : List.filter (fun x => x.date_iso == d) (a :: tl)
              = a :: List.filter (fun x => x.date_iso == d) tl := by
            simp [List.filter_cons, hc]
          rw [hf, List.map_cons, List.nodup_cons] at h2
          exact h2.2
        · have hf : List.filter (fun x => x.date_iso == d) (a :: tl)
              = List.filter (fun x => x.date_iso == d) tl := by
            simp [List.filter_cons, hc]
          rw [hf] at h2
          exact h2

/-- Deletion-free histories keep every date's index list equal to
`1, …, count`. -/
theorem applyOps_creates_indicesSeq :
    ∀ (ops : List Op), (∀ op ∈ ops, op.isCreate = true) →
      ∀ deals : List Deal, (∀ d, IndicesSeq deals d) →
      ∀ d, IndicesSeq (applyOps deals ops) d := by
  intro ops
  induction ops with
  | nil => intro _ deals h d; exact h d
  | cons op rest ih =>
      intro hall deals h d
      cases op with
      | del d0 num =>
          have := hall (.del d0 num) (List.mem_cons_self _ _)
          simp [Op.isCreate] at this
      | create d0 name A F R ms =>
          have hstep : ∀ d, IndicesSeq (applyOp deals (.create d0 name A F R ms)) d :=
            fun d => indicesSeq_create deals d0 name A F R ms d (h d)
          have hrest : ∀ op ∈ rest, op.isCreate = true :=
            fun op hop => hall op (List.mem_cons_of_mem _ hop)
          exact ih hrest (applyOp deals (.create d0 name A F R ms)) hstep d

/-- Counterexample to C4 as stated: create twice on 2025-07-21, delete
index 1, create once more on the same date — the resulting ledger
holds two deals of that date both carrying index 2. -/
theorem unique_index_violated_after_delete :
    ¬ UniqueIndexPerDate (applyOps [] opsDup) := by decide

/-- C4 (amended): through sequences of create operations only — no
deletions — every reachable ledger has per-date-unique indices, i.e.
`(date, index)` is a key. -/
theorem unique_index_creates_only (ops : List Op)
    (h : ∀ op ∈ ops, op.isCreate = true) :
    UniqueIndexPerDate (applyOps [] ops) := by
  apply nodup_sameday_unique
  intro d
  have h0 : ∀ d, IndicesSeq ([] : List Deal) d := by
    intro d
    unfold IndicesSeq samedayIndices countDate
    rfl
  have h1 := applyOps_creates_indicesSeq ops h [] h0 d
  unfold IndicesSeq at h1
  rw [h1]
  exact List.nodup_range' 1 _

/-- Witness for C4 (amended): a concrete deletion-free history over
two dates yields a ledger with per-date-unique indices. -/
theorem unique_index_creates_only_witness :
    UniqueIndexPerDate (applyOps [] opsCreates) :=
  unique_index_creates_only opsCreates (by decide)

/-- C7: the range filter keeps exactly the deals with
`start ≤ date ≤ stop` (both bounds inclusive), in storage order; when
nothing falls in range the filter is empty and the report is the
distinct no-deals signal `none` rather than a zero-valued report;
otherwise the report totals `share` over the filtered deals. -/
theorem filter_range_and_report (deals : List Deal) (start stop : SDate) :
    (filter_deals_by_date_range deals start stop).Sublist deals ∧
    (∀ x, x ∈ filter_deals_by_date_range deals start stop ↔
      x ∈ deals ∧ dateLE start x.date_iso ∧ dateLE x.date_iso stop) ∧
    (filter_deals_by_date_range deals start stop).length
      = deals.countP (fun x => decide (dateLE start x.date_iso)
          && decide (dateLE x.date_iso stop)) ∧
    ((∀ x ∈ deals, ¬(dateLE start x.date_iso ∧ dateLE x.date_iso stop)) →
      filter_deals_by_date_range deals start stop = [] ∧
      show_report deals start stop = none) ∧
    (filter_deals_by_date_range deals start stop ≠ [] →
      show_report deals start stop =
        some (((filter_deals_by_date_range deals start stop).map fun x => x.share).sum,
          filter_deals_by_date_range deals start stop)) := by
  refine ⟨?_, ?_, ?_, ?_, ?_⟩
  · exact List.filter_sublist deals
  · intro x
    unfold filter_deals_by_date_range
    rw [List.mem_filter]
    simp
  · unfold filter_deals_by_date_range
    rw [List.countP_eq_length_filter]
  · intro h
    have hf : filter_deals_by_date_range deals start stop = [] := by
      unfold filter_deals_by_date_range
      rw [List.filter_eq_nil_iff]
      intro a ha
      have := h a ha
      simp only [Bool.and_eq_true, decide_eq_true_eq]
      tauto
    refine ⟨hf, ?_⟩
    unfold show_report
    rw [hf]
    rfl
  · intro h
    unfold show_report
    rw [if_neg (by simpa [List.isEmpty_iff] using h)]

/-- Witness for C7: a one-deal ledger summarizes to that deal's share
when the deal is in range, and reports the no-deals signal over a
range containing nothing. -/
theorem filter_range_and_report_witness :
    show_report [dealA] ⟨2025, 7, 1⟩ ⟨2025, 7, 31⟩ = some (25, [dealA]) ∧
    show_report [dealA] ⟨2025, 8, 1⟩ ⟨2025, 8, 31⟩ = none := by
  constructor
  · have h := (filter_range_and_report [dealA] ⟨2025, 7, 1⟩ ⟨2025, 7, 31⟩).2.2.2.2
      (by decide)
    rw [h]
    have hf : filter_deals_by_date_range [dealA] ⟨2025, 7, 1⟩ ⟨2025, 7, 31⟩ = [dealA] := by
      unfold filter_deals_by_date_range
      rw [List.filter_cons_of_pos (by decide), List.filter_nil]
    rw [hf]
    norm_num [dealA]
  · exact ((filter_range_and_report [dealA] ⟨2025, 8, 1⟩ ⟨2025, 8, 31⟩).2.2.2.1
      (by decide)).2

/-- C10: in the creation flow the member list is validated non-empty
before any derived computation — so a successful result always has at
least one member and a well-defined `pool / memberCount` — while the
rate input accepts any numeric text, including `"0"` and negatives;
with rate text `"0"` the flow reaches the division error branch
(Python's `ZeroDivisionError` on `clean_rub / rate`). -/
theorem member_division_guarded_rate_division_unguarded :
    (∀ rub fee : ℚ, rate_members_flow "0" "#1 #2" rub fee = .error .divByZero) ∧
    get_rate "0" = some 0 ∧
    get_rate "-3" = some (-3) ∧
    (∀ (rateTxt raw : String) (rub fee rate : ℚ), get_rate rateTxt = some rate →
      findHashTokens (pyStrip raw.data) = [] →
      rate_members_flow rateTxt raw rub fee = .error .noMembers) ∧
    (∀ (rateTxt raw : String) (rub fee rate : ℚ), get_rate rateTxt = some rate →
      rate ≠ 0 → findHashTokens (pyStrip raw.data) ≠ [] →
      1 ≤ (findHashTokens (pyStrip raw.data)).length ∧
      rate_members_flow rateTxt raw rub fee =
        .ok (rub - rub * fee / 100, (rub - rub * fee / 100) / rate,
          (rub - rub * fee / 100) / rate * (25 / 100),
          (rub - rub * fee / 100) / rate * (25 / 100)
            / ((findHashTokens (pyStrip raw.data)).length : ℚ),
          findHashTokens (pyStrip raw.data))) := by
  refine ⟨?_, by decide, by decide, ?_, ?_⟩
  · intro rub fee
    rfl
  · intro rateTxt raw rub fee rate hrate hmembers
    unfold rate_members_flow
    rw [hrate, hmembers]
    rfl
  · intro rateTxt raw rub fee rate hrate hz hne
    refine ⟨List.length_pos.mpr hne, ?_⟩
    unfold rate_members_flow
    rw [hrate]
    simp only
    rw [if_neg (by simpa [List.isEmpty_iff] using hne), if_neg hz]

/-- Witness for C10: rate text `"0"` is accepted as the number 0 and
drives the flow into the division error branch; a text with no
`#`-member token fails the member check before any computation; a
successful run has 2 ≥ 1 members and share = pool / 2. -/
theorem member_division_guarded_witness :
    rate_members_flow "0" "#1 #2" 100 2 = .error .divByZero ∧
    get_rate "0" = some 0 ∧
    rate_members_flow "90" "nobody" 100 2 = .error .noMembers ∧
    rate_members_flow "90" "#1 #2" 10000 2
      = .ok (9800, 980 / 9, 245 / 9, 245 / 18, ["#1", "#2"]) := by
  have h := member_division_guarded_rate_division_unguarded
  have hrate : get_rate "90" = some 90 := by decide
  have hfind : findHashTokens (pyStrip ("#1 #2" : String).data) = ["#1", "#2"] := by decide
  refine ⟨h.1 100 2, h.2.1, ?_, ?_⟩
  · exact h.2.2.2.1 "90" "nobody" 100 2 90 hrate (by decide)
  · have h5 := (h.2.2.2.2 "90" "#1 #2" 10000 2 90 hrate (by norm_num)
      (by rw [hfind]; exact List.cons_ne_nil _ _)).2
    rw [h5, hfind]
    norm_num

end Salary2445
